import Mathlib

/-!
# Verification of the PDF text-editing core (`src/lib/pdf-text-editor.ts`)

A shallow embedding of the text-extraction, block-grouping, fuzzy-matching,
replacement and re-flow rendering functions of the repository, together with
theorems settling the specification claims about them.

JavaScript numbers are modelled as `ℚ` (all constants involved are exact),
JavaScript strings as Lean `String` (manipulated through their `List Char`
data), and JavaScript's stable `Array.prototype.sort` as a stable insertion
sort driven by the source's comparator.
-/

namespace PdfTextEditor

/-! ## Data model (`TextItem`, `TextBlock`, `PdfTextMap`) -/

/-- `TextItem.position` from the source: bounding data of one glyph run. -/
structure ItemPos where
  x : ℚ
  y : ℚ
  width : ℚ
  height : ℚ
  fontSize : Option ℚ := none
  fontName : Option String := none
  deriving DecidableEq

/-- `TextItem` from the source: one positioned glyph run. -/
structure TextItem where
  text : String
  position : ItemPos
  pageIndex : ℕ
  deriving DecidableEq

/-- A block's bounding box `{x, y, width, height}`. -/
structure BlockPos where
  x : ℚ
  y : ℚ
  width : ℚ
  height : ℚ
  deriving DecidableEq

/-- `TextBlock` from the source. -/
structure TextBlock where
  items : List TextItem
  text : String
  position : BlockPos
  pageIndex : ℕ
  isModified : Bool
  originalText : Option String := none
  deriving DecidableEq

/-- One entry of `PdfTextMap.pages`. -/
structure PageDim where
  width : ℚ
  height : ℚ
  deriving DecidableEq

/-- `PdfTextMap` from the source. -/
structure PdfTextMap where
  blocks : List TextBlock
  pages : List PageDim
  deriving DecidableEq

/-! ## Whitespace and normalization helpers

These model the JavaScript string operations used by `fuzzyTextMatch` and
`calculateSimilarity`: `trim()`, `replace(/\s+/g, " ")`, `toLowerCase()` and
`split(/\s+/)`, restricted to ASCII whitespace. -/

/-- ASCII whitespace, modelling the regex class `\s` on ASCII text. -/
def isWs (c : Char) : Bool :=
  c = ' ' || c = '\t' || c = '\n' || c = '\r' || c = '\x0b' || c = '\x0c'

/-- `s.trim()`. -/
def trimWs (s : List Char) : List Char :=
  ((s.dropWhile isWs).reverse.dropWhile isWs).reverse

/-- Worker for `collapseWs`; the flag records whether the previous character
belonged to a whitespace run (whose later characters are dropped). -/
def collapseWsGo : Bool → List Char → List Char
  | _, [] => []
  | prevWs, c :: rest =>
    if isWs c then
      if prevWs then collapseWsGo true rest
      else ' ' :: collapseWsGo true rest
    else c :: collapseWsGo false rest

/-- `s.replace(/\s+/g, " ")`: collapse every maximal whitespace run to one space. -/
def collapseWs (s : List Char) : List Char := collapseWsGo false s

/-- Worker for `splitWs`: in mode `false` it accumulates the current word
(reversed) in `cur`; in mode `true` it skips the rest of a whitespace run. -/
def splitWsGo : Bool → List Char → List Char → List (List Char)
  | false, cur, [] => [cur.reverse]
  | false, cur, c :: rest =>
    if isWs c then cur.reverse :: splitWsGo true [] rest
    else splitWsGo false (c :: cur) rest
  | true, _, [] => [[]]
  | true, _, c :: rest =>
    if isWs c then splitWsGo true [] rest
    else splitWsGo false [c] rest

/-- `s.split(/\s+/)`: split at maximal whitespace runs (a leading or trailing
run contributes an empty element, and `"".split` gives `[""]`, as in JS). -/
def splitWs (s : List Char) : List (List Char) := splitWsGo false [] s

/-- Worker for `splitOnChar`. -/
def splitOnCharGo (sep : Char) (cur : List Char) : List Char → List (List Char)
  | [] => [cur.reverse]
  | c :: rest =>
    if c = sep then cur.reverse :: splitOnCharGo sep [] rest
    else splitOnCharGo sep (c :: cur) rest

/-- `s.split(sep)` for a one-character separator (the source only splits on
`"\n"` and `" "`): every separator occurrence delimits a (possibly empty)
field, and `"".split(sep)` gives `[""]`, as in JS. -/
def splitOnChar (sep : Char) (s : List Char) : List (List Char) :=
  splitOnCharGo sep [] s

/-- The `normalize` closure inside `fuzzyTextMatch`:
`text.trim().replace(/\s+/g, " ").toLowerCase()`. -/
def normalize (s : List Char) : List Char :=
  (collapseWs (trimWs s)).map Char.toLower

/-! ## `calculateSimilarity` and `fuzzyTextMatch` -/

/-- `calculateSimilarity(s1, s2)` from the source: `1.0` on identical strings,
`0.0` when either is empty, otherwise the Jaccard similarity of the word sets
(the source builds the intersection by filtering `words1` through membership
in `words2`, and the union by rebuilding a set from both word lists). -/
def calculateSimilarity (s1 s2 : List Char) : ℚ :=
  if s1 = s2 then 1
  else if s1.length = 0 ∨ s2.length = 0 then 0
  else
    (((splitWs s1).toFinset.filter (fun x => x ∈ (splitWs s2).toFinset)).card : ℚ) /
    (((splitWs s1).toFinset ∪ (splitWs s2).toFinset).card : ℚ)

/-- `fuzzyTextMatch(text1, text2)` from the source: normalize both, then test
containment either way or Jaccard similarity above `0.7`. -/
def fuzzyTextMatch (text1 text2 : String) : Bool :=
  let normalizedText1 := normalize text1.data
  let normalizedText2 := normalize text2.data
  decide (normalizedText2 <:+: normalizedText1) ||
  decide (normalizedText1 <:+: normalizedText2) ||
  decide (calculateSimilarity normalizedText1 normalizedText2 > 7/10)

/-! ## `findTextBlockToReplace` -/

/-- The overlap test inside `findTextBlockToReplace`: positive overlap on both
axes, with the source's `Math.max(0, …)` clamping. -/
def overlapsRegion (position : BlockPos) (block : TextBlock) : Bool :=
  let x := block.position.x
  let y := block.position.y
  let width := block.position.width
  let height := block.position.height
  let overlapX :=
    max 0 (min (x + width) (position.x + position.width) - max x position.x)
  let overlapY :=
    max 0 (min (y + height) (position.y + position.height) - max y position.y)
  decide (overlapX > 0) && decide (overlapY > 0)

/-- The `pageBlocks` intermediate of `findTextBlockToReplace`. -/
def pageBlocksOf (textMap : PdfTextMap) (pageIndex : ℕ) : List TextBlock :=
  textMap.blocks.filter (fun block => block.pageIndex == pageIndex)

/-- The `overlappingBlocks` intermediate of `findTextBlockToReplace`. -/
def overlappingBlocksOf (textMap : PdfTextMap) (position : BlockPos)
    (pageIndex : ℕ) : List TextBlock :=
  (pageBlocksOf textMap pageIndex).filter (overlapsRegion position)

/-- `findTextBlockToReplace(textMap, originalText, position, pageIndex)` from
the source: filter to the page, filter to overlapping blocks, return the first
fuzzy-matching one, else the first overlapping one (`overlappingBlocks[0]`),
else `null`. -/
def findTextBlockToReplace (textMap : PdfTextMap) (originalText : String)
    (position : BlockPos) (pageIndex : ℕ) : Option TextBlock :=
  match overlappingBlocksOf textMap position pageIndex with
  | [] => none
  | first :: _ =>
    match (overlappingBlocksOf textMap position pageIndex).find?
      (fun block => fuzzyTextMatch block.text originalText) with
    | some block => some block
    | none => some first

/-- Spec-side reading of the overlap requirement: the overlap width and the
overlap height of the two boxes (before any clamping) are both strictly
positive, i.e. the boxes share a positive-area intersection. -/
def PosOverlap (position bp : BlockPos) : Prop :=
  min (bp.x + bp.width) (position.x + position.width) - max bp.x position.x > 0 ∧
  min (bp.y + bp.height) (position.y + position.height) - max bp.y position.y > 0

/-! ## `replaceTextInBlock` -/

/-- The lookup key of `replaceTextInBlock`'s `findIndex`: same page index and
same position origin. -/
def sameKeys (block blockToReplace : TextBlock) : Bool :=
  decide (block.pageIndex = blockToReplace.pageIndex) &&
  decide (block.position.x = blockToReplace.position.x) &&
  decide (block.position.y = blockToReplace.position.y)

/-- `replaceTextInBlock(textMap, blockToReplace, newText)` from the source.
The source shallow-copies both arrays and assigns one index of the copy, so
the embedding is the corresponding pure update; the original map value is
returned untouched when no block matches the keys. -/
def replaceTextInBlock (textMap : PdfTextMap) (blockToReplace : TextBlock)
    (newText : String) : PdfTextMap :=
  match textMap.blocks.findIdx? (fun block => sameKeys block blockToReplace) with
  | none => textMap
  | some blockIndex =>
    let updatedBlock : TextBlock :=
      { blockToReplace with
        text := newText
        originalText := some blockToReplace.text
        isModified := true }
    { blocks := textMap.blocks.set blockIndex updatedBlock
      pages := textMap.pages }

/-! ## `groupTextIntoBlocks` -/

/-- The comparator passed to `sort` in `groupTextIntoBlocks` (sign convention
as in JS: negative keeps `a` before `b`). -/
def sortCmp (a b : TextItem) : ℚ :=
  if a.pageIndex ≠ b.pageIndex then (a.pageIndex : ℚ) - (b.pageIndex : ℚ)
  else
    let yThreshold := max a.position.height b.position.height * (1/2)
    if |a.position.y - b.position.y| > yThreshold then b.position.y - a.position.y
    else a.position.x - b.position.x

/-- Insert into an already-sorted list, keeping the incoming element before
elements that compare equal (stability). -/
def insertCmp (cmp : TextItem → TextItem → ℚ) (a : TextItem) :
    List TextItem → List TextItem
  | [] => [a]
  | b :: rest =>
    if cmp a b ≤ 0 then a :: b :: rest else b :: insertCmp cmp a rest

/-- Stable sort modelling `[...textItems].sort(cmp)` (JS sort is stable; for
the comparator above this insertion sort agrees with it on consistently
ordered inputs, and exactly on the two-element inputs of the claims). -/
def sortWith (cmp : TextItem → TextItem → ℚ) : List TextItem → List TextItem
  | [] => []
  | a :: rest => insertCmp cmp a (sortWith cmp rest)

/-- `createBlockFromItems(items)` from the source. The source throws on an
empty array; both call sites guard with `length > 0`, so the empty case is
unreachable and is given a dummy block. The source seeds its min/max folds
with `±Infinity`; for a non-empty list that equals seeding with the first
item's values. -/
def createBlockFromItems : List TextItem → TextBlock
  | [] => { items := [], text := "", position := ⟨0, 0, 0, 0⟩
            pageIndex := 0, isModified := false }
  | first :: rest =>
    let items := first :: rest
    let pageIndex := first.pageIndex
    let minX := rest.foldl (fun m i => min m i.position.x) first.position.x
    let minY := rest.foldl (fun m i => min m i.position.y) first.position.y
    let maxX := rest.foldl (fun m i => max m (i.position.x + i.position.width))
      (first.position.x + first.position.width)
    let maxY := rest.foldl (fun m i => max m (i.position.y + i.position.height))
      (first.position.y + first.position.height)
    { items := items
      text := String.intercalate " " (items.map (fun i => i.text))
      position := ⟨minX, minY, maxX - minX, maxY - minY⟩
      pageIndex := pageIndex
      isModified := false }

/-- The mutable loop state of `groupTextIntoBlocks` (`currentPageIndex`,
`lastY` and `lastRight` start at the sentinel `-1`, hence `ℤ`/`ℚ`). -/
structure GroupState where
  blocks : List TextBlock
  currentBlock : List TextItem
  currentPageIndex : ℤ
  lastY : ℚ
  lastRight : ℚ

/-- One iteration of the grouping loop body. -/
def groupStep (st : GroupState) (item : TextItem) : GroupState :=
  let x := item.position.x
  let y := item.position.y
  let width := item.position.width
  let height := item.position.height
  let right := x + width
  let isNewPage := (item.pageIndex : ℤ) ≠ st.currentPageIndex
  let isNewLine := |y - st.lastY| > height * (1/2)
  let isGap := x > st.lastRight + width * (1/2)
  let closed :=
    if st.currentBlock ≠ [] ∧ (isNewPage ∨ isNewLine ∨ isGap) then
      { st with blocks := st.blocks ++ [createBlockFromItems st.currentBlock]
                currentBlock := [] }
    else st
  { closed with
    currentBlock := closed.currentBlock ++ [item]
    currentPageIndex := (item.pageIndex : ℤ)
    lastY := y
    lastRight := right }

/-- `groupTextIntoBlocks(textItems)` from the source. -/
def groupTextIntoBlocks (textItems : List TextItem) : List TextBlock :=
  let sortedItems := sortWith sortCmp textItems
  let final := sortedItems.foldl groupStep ⟨[], [], -1, -1, -1⟩
  if final.currentBlock ≠ [] then
    final.blocks ++ [createBlockFromItems final.currentBlock]
  else final.blocks

/-! ## `drawTextWithWrapping` and the drawing operations of
`regeneratePdfWithModifiedText`

`font.widthOfTextAtSize` belongs to the external font collaborator, so the
embedding takes the width metric as a function parameter `widthOf`. Drawing
calls are recorded as operations in issue order. -/

/-- One `page.drawText` call (the drawn string as its character list). -/
structure TextDrawOp where
  content : List Char
  x : ℚ
  y : ℚ
  size : ℚ
  deriving DecidableEq

/-- State of the word loop in `drawTextWithWrapping`. -/
structure WrapState where
  line : List Char
  yOffset : ℚ
  ops : List TextDrawOp
  deriving DecidableEq

/-- One iteration of the word loop of `drawTextWithWrapping`:
`testLine = line + (line ? " " : "") + word`; when it overflows and the
current line is non-empty, the line is drawn at `y + yOffset` and the offset
advances by one line height. -/
def wrapWordStep (widthOf : List Char → ℚ → ℚ) (x y maxWidth fontSize lineHeight : ℚ)
    (st : WrapState) (word : List Char) : WrapState :=
  let testLine := st.line ++ (if st.line ≠ [] then [' '] else []) ++ word
  let testWidth := widthOf testLine fontSize
  if testWidth > maxWidth ∧ st.line ≠ [] then
    { line := word
      yOffset := st.yOffset + lineHeight
      ops := st.ops ++ [⟨st.line, x, y + st.yOffset, fontSize⟩] }
  else { st with line := testLine }

/-- One iteration of the paragraph loop of `drawTextWithWrapping`: a paragraph
that is empty after trimming only advances the offset by one line height;
otherwise the words (split on `" "`) are wrapped and the last line, if any, is
drawn followed by an extra half line height (`lineHeight * 1.5` total). -/
def wrapParagraphStep (widthOf : List Char → ℚ → ℚ)
    (x y maxWidth fontSize lineHeight : ℚ)
    (st : ℚ × List TextDrawOp) (paragraph : List Char) : ℚ × List TextDrawOp :=
  if trimWs paragraph = [] then (st.1 + lineHeight, st.2)
  else
    let words := splitOnChar ' ' paragraph
    let w := words.foldl (wrapWordStep widthOf x y maxWidth fontSize lineHeight)
      ⟨[], st.1, st.2⟩
    if w.line ≠ [] then
      (w.yOffset + lineHeight * (3/2), w.ops ++ [⟨w.line, x, y + w.yOffset, fontSize⟩])
    else (w.yOffset, w.ops)

/-- `drawTextWithWrapping(page, text, x, y, maxWidth, font, fontSize)` from the
source, returning the issued `drawText` calls in order. The external
`font.widthOfTextAtSize` metric is the parameter `widthOf`. -/
def drawTextWithWrapping (widthOf : List Char → ℚ → ℚ) (text : String)
    (x y maxWidth fontSize : ℚ) : List TextDrawOp :=
  let lineHeight := fontSize * (12/10)
  ((splitOnChar '\n' text.data).foldl
    (wrapParagraphStep widthOf x y maxWidth fontSize lineHeight) (0, [])).2

/-- A drawing operation issued by `regeneratePdfWithModifiedText`: the white
cover rectangle (`drawRectangle` with `rgb(1,1,1)`, opacity 1) or a text draw. -/
inductive DrawOp where
  | rect (x y width height : ℚ)
  | text (op : TextDrawOp)
  deriving DecidableEq

/-- The operations `regeneratePdfWithModifiedText` issues for one block:
white-out rectangle at the converted coordinates, then the wrapped redraw at
default font size 10. -/
def blockDrawOps (widthOf : List Char → ℚ → ℚ) (pageHeight : ℚ)
    (block : TextBlock) : List DrawOp :=
  DrawOp.rect block.position.x
      (pageHeight - block.position.y - block.position.height)
      block.position.width block.position.height
    :: (drawTextWithWrapping widthOf block.text block.position.x
        (pageHeight - block.position.y - block.position.height)
        block.position.width 10).map DrawOp.text

/-- The operations `regeneratePdfWithModifiedText` issues on one page: the
source filters the map's blocks to `pageIndex === page && isModified` and
processes them in order. -/
def pageDrawOps (widthOf : List Char → ℚ → ℚ) (pageHeight : ℚ)
    (textMap : PdfTextMap) (pageIndex : ℕ) : List DrawOp :=
  let modifiedBlocks := textMap.blocks.filter
    (fun block => block.pageIndex == pageIndex && block.isModified)
  modifiedBlocks.flatMap (blockDrawOps widthOf pageHeight)

/-! ## `extractTextWithPositions`: per-item conversion -/

/-- One raw item as delivered by the external extractor (PDF.js `getTextContent`):
`str`, the 6-entry transform matrix (fields `t0`–`t5` for indices 0–5), and
optional `width`, `height`, `fontSize`, `fontName`. -/
structure RawTextItem where
  str : String
  t0 : ℚ := 0
  t1 : ℚ := 0
  t2 : ℚ := 0
  t3 : ℚ := 0
  t4 : ℚ := 0
  t5 : ℚ := 0
  width : Option ℚ := none
  height : Option ℚ := none
  fontSize : Option ℚ := none
  fontName : Option String := none
  deriving DecidableEq

/-- JavaScript's `v || dflt` on an optional number: the default when the value
is absent or `0` (both falsy), the value otherwise. -/
def jsOr (v : Option ℚ) (dflt : ℚ) : ℚ :=
  match v with
  | none => dflt
  | some q => if q = 0 then dflt else q

/-- The per-item conversion inside `extractTextWithPositions`:
`fontSize = item.height || item.transform[3] * (item.fontSize || 10)`,
`height = fontSize * 1.2`, position from `transform[4]`/`transform[5]`,
`width = item.width || item.str.length * fontSize * 0.6`. -/
def mkTextItem (pageIndex : ℕ) (item : RawTextItem) : TextItem :=
  let fontSize := jsOr item.height (item.t3 * jsOr item.fontSize 10)
  let height := fontSize * (12/10)
  { text := item.str
    position :=
      { x := item.t4
        y := item.t5
        width := jsOr item.width ((item.str.length : ℚ) * fontSize * (6/10))
        height := height
        fontSize := some fontSize
        fontName := item.fontName }
    pageIndex := pageIndex }

/-! ## Buffer identity model for `regeneratePdfWithModifiedText`

`ArrayBuffer` identity is modelled symbolically: a reference carries an id,
`new Uint8Array(buffer)` is a view sharing that buffer (JS copies nothing
here), and `.buffer` projects the view's backing buffer. -/

/-- A JavaScript `ArrayBuffer` object identity. -/
structure ArrayBufferRef where
  id : ℕ
  deriving DecidableEq

/-- A `Uint8Array` view together with its backing buffer. -/
structure Uint8ArrayView where
  buffer : ArrayBufferRef
  deriving DecidableEq

/-- `new Uint8Array(ab)` for an `ArrayBuffer` argument: a view over the SAME
buffer — no bytes are copied. -/
def newUint8Array (ab : ArrayBufferRef) : Uint8ArrayView := ⟨ab⟩

/-- The buffer `regeneratePdfWithModifiedText` hands to `PDFDocument.load`:
`new Uint8Array(originalPdfArrayBuffer).buffer`. -/
def regenerateParserBuffer (originalPdfArrayBuffer : ArrayBufferRef) : ArrayBufferRef :=
  (newUint8Array originalPdfArrayBuffer).buffer

/-! ## Spec-side definitions

These are written from the specification's wording (not from the source) and
are compared with the source embedding in the claim theorems. -/

/-- Spec-side similarity: `1.0` on identical strings (explicit early branch),
`0` when either string is empty, otherwise word-set Jaccard similarity written
directly with `Finset` intersection and union. -/
def specSimilarity (s1 s2 : List Char) : ℚ :=
  if s1 = s2 then 1
  else if s1 = [] ∨ s2 = [] then 0
  else
    (((splitWs s1).toFinset ∩ (splitWs s2).toFinset).card : ℚ) /
    (((splitWs s1).toFinset ∪ (splitWs s2).toFinset).card : ℚ)

/-- A concrete monospace width metric standing in for the external font's
`widthOfTextAtSize`: every character is `size` wide. -/
def monoWidthOf (s : List Char) (size : ℚ) : ℚ := (s.length : ℚ) * size

/-! ## Helper lemmas -/

theorem consEqNilFalse {α : Type _} (a : α) (l : List α) : (a :: l = []) = False := by
  simp

theorem notConsEqNilTrue {α : Type _} (a : α) (l : List α) : (¬ a :: l = []) = True := by
  simp

/-- Unfolding of `fuzzyTextMatch` into its three propositional disjuncts. -/
theorem fuzzyTextMatch_true_iff (text1 text2 : String) :
    fuzzyTextMatch text1 text2 = true ↔
      (normalize text2.data <:+: normalize text1.data ∨
       normalize text1.data <:+: normalize text2.data ∨
       calculateSimilarity (normalize text1.data) (normalize text2.data) > 7/10) := by
  simp only [fuzzyTextMatch, Bool.or_eq_true, decide_eq_true_eq, gt_iff_lt, or_assoc]

/-- `fuzzyTextMatch` is `false` when all three disjuncts fail. -/
theorem fuzzyTextMatch_eq_false {text1 text2 : String}
    (h1 : ¬ normalize text2.data <:+: normalize text1.data)
    (h2 : ¬ normalize text1.data <:+: normalize text2.data)
    (h3 : ¬ calculateSimilarity (normalize text1.data) (normalize text2.data) > 7/10) :
    fuzzyTextMatch text1 text2 = false := by
  simp [fuzzyTextMatch, h1, h2, h3]

/-- Evaluation rule for `calculateSimilarity` in the generic (Jaccard) case. -/
theorem calculateSimilarity_eval {s1 s2 : List Char} {m n : ℕ}
    (hne : ¬ s1 = s2) (h1 : ¬ s1.length = 0) (h2 : ¬ s2.length = 0)
    (hm : ((splitWs s1).toFinset.filter (fun x => x ∈ (splitWs s2).toFinset)).card = m)
    (hn : ((splitWs s1).toFinset ∪ (splitWs s2).toFinset).card = n) :
    calculateSimilarity s1 s2 = (m : ℚ) / (n : ℚ) := by
  rw [calculateSimilarity, if_neg hne, if_neg (by push_neg; exact ⟨h1, h2⟩), hm, hn]

/-- The source's `calculateSimilarity` agrees with the spec-side similarity. -/
theorem calculateSimilarity_eq_spec (s1 s2 : List Char) :
    calculateSimilarity s1 s2 = specSimilarity s1 s2 := by
  unfold calculateSimilarity specSimilarity
  simp only [Finset.filter_mem_eq_inter, List.length_eq_zero]

/-- `calculateSimilarity` is symmetric in its two arguments. -/
theorem calculateSimilarity_comm (s1 s2 : List Char) :
    calculateSimilarity s1 s2 = calculateSimilarity s2 s1 := by
  unfold calculateSimilarity
  simp only [Finset.filter_mem_eq_inter]
  exact if_congr eq_comm rfl
    (if_congr or_comm rfl (by rw [Finset.inter_comm, Finset.union_comm]))

/-- `overlapsRegion` decides exactly the spec-side positive-area overlap. -/
theorem overlapsRegion_eq_true_iff (position : BlockPos) (block : TextBlock) :
    overlapsRegion position block = true ↔ PosOverlap position block.position := by
  simp only [overlapsRegion, PosOverlap, Bool.and_eq_true, decide_eq_true_eq, gt_iff_lt,
    lt_max_iff, lt_irrefl, false_or]

/-- Membership in the `overlappingBlocks` intermediate, characterized. -/
theorem mem_overlappingBlocksOf {textMap : PdfTextMap} {position : BlockPos}
    {pageIndex : ℕ} {b : TextBlock} :
    b ∈ overlappingBlocksOf textMap position pageIndex ↔
      b ∈ textMap.blocks ∧ b.pageIndex = pageIndex ∧ PosOverlap position b.position := by
  simp only [overlappingBlocksOf, pageBlocksOf, List.mem_filter, overlapsRegion_eq_true_iff,
    beq_iff_eq]
  tauto

/-- Filtering before a `flatMap` is the same as mapping unselected elements
to the empty list. -/
theorem filter_flatMap_if {α β : Type _} (l : List α) (p : α → Bool) (f : α → List β) :
    (l.filter p).flatMap f = l.flatMap (fun a => if p a = true then f a else []) := by
  induction l with
  | nil => rfl
  | cons a rest ih =>
    by_cases h : p a = true
    · simp [List.filter_cons, h, ih]
    · simp [List.filter_cons, h, ih]

/-! ## Claim theorems -/

/-- C1. Evaluation of `drawTextWithWrapping` at the failing input (monospace
metric, box width 30, font size 10, so the line height is 12): the second
wrapped line of `"aa bb"` is drawn at `y = 112`, which is GREATER than the
first line's `y = 100` — in PDF user space (pdf-lib, y grows upward, as the
call site's own `pageHeight - y - height` flip shows) that is one line height
further UP the page, not down, so wrapped content flows and overflows upward.
The magnitudes the claim states are confirmed: 12 (= 10·1.2) per line, an
extra 6 after a paragraph (112 → 142 across one blank paragraph:
12·1.5 + 12), a blank paragraph advances exactly 12, and a single word wider
than the box (`"zzzzzzzz"`, width 80 > 30) is still drawn whole. -/
theorem drawTextWithWrapping_flow :
    drawTextWithWrapping monoWidthOf "aa bb" 0 100 30 10 =
      [⟨['a','a'], 0, 100, 10⟩, ⟨['b','b'], 0, 112, 10⟩] ∧
    drawTextWithWrapping monoWidthOf "aa bb\n\ncc" 0 100 30 10 =
      [⟨['a','a'], 0, 100, 10⟩, ⟨['b','b'], 0, 112, 10⟩, ⟨['c','c'], 0, 142, 10⟩] ∧
    drawTextWithWrapping monoWidthOf "zzzzzzzz" 0 100 30 10 =
      [⟨['z','z','z','z','z','z','z','z'], 0, 100, 10⟩] ∧
    (100 : ℚ) < 112 := by
  refine ⟨?_, ?_, ?_, by norm_num⟩
  · have h : "aa bb".data = ['a','a',' ','b','b'] := rfl
    have hsplit : splitOnChar '\n' ['a','a',' ','b','b'] = [['a','a',' ','b','b']] := rfl
    have htrim : trimWs ['a','a',' ','b','b'] = ['a','a',' ','b','b'] := rfl
    have hwords : splitOnChar ' ' ['a','a',' ','b','b'] = [['a','a'],['b','b']] := rfl
    norm_num [drawTextWithWrapping, wrapParagraphStep, wrapWordStep, monoWidthOf, h, hsplit,
      htrim, hwords, consEqNilFalse, notConsEqNilTrue]
  · have h : "aa bb\n\ncc".data = ['a','a',' ','b','b','\n','\n','c','c'] := rfl
    have hsplit : splitOnChar '\n' ['a','a',' ','b','b','\n','\n','c','c'] =
      [['a','a',' ','b','b'], [], ['c','c']] := rfl
    have ht1 : trimWs ['a','a',' ','b','b'] = ['a','a',' ','b','b'] := rfl
    have ht2 : trimWs ([] : List Char) = [] := rfl
    have ht3 : trimWs ['c','c'] = ['c','c'] := rfl
    have hw1 : splitOnChar ' ' ['a','a',' ','b','b'] = [['a','a'],['b','b']] := rfl
    have hw3 : splitOnChar ' ' ['c','c'] = [['c','c']] := rfl
    norm_num [drawTextWithWrapping, wrapParagraphStep, wrapWordStep, monoWidthOf, h, hsplit,
      ht1, ht2, ht3, hw1, hw3, consEqNilFalse, notConsEqNilTrue]
  · have h : "zzzzzzzz".data = ['z','z','z','z','z','z','z','z'] := rfl
    have hsplit : splitOnChar '\n' ['z','z','z','z','z','z','z','z'] =
      [['z','z','z','z','z','z','z','z']] := rfl
    have htrim : trimWs ['z','z','z','z','z','z','z','z'] =
      ['z','z','z','z','z','z','z','z'] := rfl
    have hwords : splitOnChar ' ' ['z','z','z','z','z','z','z','z'] =
      [['z','z','z','z','z','z','z','z']] := rfl
    norm_num [drawTextWithWrapping, wrapParagraphStep, wrapWordStep, monoWidthOf, h, hsplit,
      htrim, hwords, consEqNilFalse, notConsEqNilTrue]

/-- C2. On every page, `regeneratePdfWithModifiedText` issues drawing
operations exactly for the blocks of that page with `isModified = true`: each
such block contributes its white-out rectangle at
`(x, pageHeight - y - height)` with the block's stored width and height,
followed by its wrapped redraw at that same origin with font size 10; every
other block contributes no operation at all. -/
theorem regenerate_pageDrawOps_spec (widthOf : List Char → ℚ → ℚ) (pageHeight : ℚ)
    (textMap : PdfTextMap) (pageIndex : ℕ) :
    pageDrawOps widthOf pageHeight textMap pageIndex =
      textMap.blocks.flatMap (fun block =>
        if block.pageIndex = pageIndex ∧ block.isModified = true then
          DrawOp.rect block.position.x (pageHeight - block.position.y - block.position.height)
              block.position.width block.position.height
            :: (drawTextWithWrapping widthOf block.text block.position.x
                (pageHeight - block.position.y - block.position.height)
                block.position.width 10).map DrawOp.text
        else []) := by
  simp only [pageDrawOps]
  rw [filter_flatMap_if]
  congr 1
  funext block
  have hiff : ((block.pageIndex == pageIndex && block.isModified) = true) ↔
      (block.pageIndex = pageIndex ∧ block.isModified = true) := by
    simp [Bool.and_eq_true, beq_iff_eq]
  by_cases h : block.pageIndex = pageIndex ∧ block.isModified = true
  · rw [if_pos (hiff.mpr h), if_pos h]; rfl
  · rw [if_neg (fun hh => h (hiff.mp hh)), if_neg h]

/-- C3. `findTextBlockToReplace` returns `none` exactly when no block of the
map on the given page overlaps the region with positive area on both axes;
any returned block is an overlapping block of that page; when some
overlapping block fuzzy-matches, the result is the FIRST fuzzy-matching
block in the map's existing order (everything before it in the overlapping
list fails the fuzzy match); and when none fuzzy-matches, the result is the
first overlapping block. -/
theorem findTextBlockToReplace_spec (textMap : PdfTextMap) (originalText : String)
    (position : BlockPos) (pageIndex : ℕ) :
    (findTextBlockToReplace textMap originalText position pageIndex = none ↔
      ∀ b ∈ textMap.blocks, b.pageIndex = pageIndex → ¬ PosOverlap position b.position) ∧
    (∀ b, findTextBlockToReplace textMap originalText position pageIndex = some b →
      b ∈ textMap.blocks ∧ b.pageIndex = pageIndex ∧ PosOverlap position b.position) ∧
    ((∃ b ∈ overlappingBlocksOf textMap position pageIndex,
        fuzzyTextMatch b.text originalText = true) →
      ∀ b, findTextBlockToReplace textMap originalText position pageIndex = some b →
        ∃ l1 l2, overlappingBlocksOf textMap position pageIndex = l1 ++ b :: l2 ∧
          fuzzyTextMatch b.text originalText = true ∧
          ∀ a ∈ l1, fuzzyTextMatch a.text originalText = false) ∧
    ((∀ b ∈ overlappingBlocksOf textMap position pageIndex,
        fuzzyTextMatch b.text originalText = false) →
      findTextBlockToReplace textMap originalText position pageIndex =
        (overlappingBlocksOf textMap position pageIndex).head?) := by
  refine ⟨⟨?_, ?_⟩, ?_, ?_, ?_⟩
  · intro hnone b hb hpage hov
    have hmem : b ∈ overlappingBlocksOf textMap position pageIndex :=
      mem_overlappingBlocksOf.mpr ⟨hb, hpage, hov⟩
    rcases hovl : overlappingBlocksOf textMap position pageIndex with _ | ⟨first, rest⟩
    · rw [hovl] at hmem
      cases hmem
    · rcases hf : (first :: rest).find?
        (fun block => fuzzyTextMatch block.text originalText) with _ | blk
      · simp only [findTextBlockToReplace, hovl, hf] at hnone
        exact Option.noConfusion hnone
      · simp only [findTextBlockToReplace, hovl, hf] at hnone
        exact Option.noConfusion hnone
  · intro h
    have hovl : overlappingBlocksOf textMap position pageIndex = [] := by
      rw [List.eq_nil_iff_forall_not_mem]
      intro b hmem
      rcases mem_overlappingBlocksOf.mp hmem with ⟨hb, hpage, hov⟩
      exact h b hb hpage hov
    simp only [findTextBlockToReplace, hovl]
  · intro b hsome
    rcases hovl : overlappingBlocksOf textMap position pageIndex with _ | ⟨first, rest⟩
    · simp only [findTextBlockToReplace, hovl] at hsome
      exact Option.noConfusion hsome
    · have hmem : b ∈ overlappingBlocksOf textMap position pageIndex := by
        rcases hf : (first :: rest).find?
          (fun block => fuzzyTextMatch block.text originalText) with _ | blk
        · simp only [findTextBlockToReplace, hovl, hf] at hsome
          rw [hovl, ← Option.some.inj hsome]
          exact List.mem_cons_self _ _
        · simp only [findTextBlockToReplace, hovl, hf] at hsome
          rw [hovl, ← Option.some.inj hsome]
          exact List.mem_of_find?_eq_some hf
      exact mem_overlappingBlocksOf.mp hmem
  · intro hex b hsome
    obtain ⟨w, hw, hpw⟩ := hex
    rcases hovl : overlappingBlocksOf textMap position pageIndex with _ | ⟨first, rest⟩
    · rw [hovl] at hw
      cases hw
    · rcases hf : (first :: rest).find?
        (fun block => fuzzyTextMatch block.text originalText) with _ | blk
      · exfalso
        rw [List.find?_eq_none] at hf
        rw [hovl] at hw
        exact hf w hw (by simpa using hpw)
      · simp only [findTextBlockToReplace, hovl, hf] at hsome
        obtain ⟨hpb, as, bs, hsplit, hprev⟩ := List.find?_eq_some.mp hf
        have hb : blk = b := Option.some.inj hsome
        refine ⟨as, bs, ?_, ?_, ?_⟩
        · rw [hsplit, hb]
        · rw [← hb]
          exact hpb
        · intro a ha
          simpa using hprev a ha
  · intro hall
    rcases hovl : overlappingBlocksOf textMap position pageIndex with _ | ⟨first, rest⟩
    · simp only [findTextBlockToReplace, hovl, List.head?]
    · have hf : (first :: rest).find?
          (fun block => fuzzyTextMatch block.text originalText) = none := by
        rw [List.find?_eq_none]
        intro x hx
        have hx2 := hall x (by rw [hovl]; exact hx)
        simp [hx2]
      simp only [findTextBlockToReplace, hovl, hf, List.head?]

/-- C3, witness: one block on page 0 at `(0,0)` of size `10 × 10`, a region
at `(5,5)` overlapping it, and an original text `"qq"` that does not
fuzzy-match the block's `"xyz"`; the fallback returns that block anyway. -/
theorem findTextBlockToReplace_spec_witness :
    findTextBlockToReplace
        ⟨[⟨[], "xyz", ⟨0, 0, 10, 10⟩, 0, false, none⟩], []⟩ "qq" ⟨5, 5, 10, 10⟩ 0 =
      some ⟨[], "xyz", ⟨0, 0, 10, 10⟩, 0, false, none⟩ := by
  have hfuzzy : fuzzyTextMatch "xyz" "qq" = false := by
    refine fuzzyTextMatch_eq_false (by decide) (by decide) ?_
    have he := @calculateSimilarity_eval (normalize "xyz".data) (normalize "qq".data) 0 2
      (by decide) (by decide) (by decide) (by decide) (by decide)
    rw [he]
    norm_num
  have hovl : overlappingBlocksOf
      ⟨[⟨[], "xyz", ⟨0, 0, 10, 10⟩, 0, false, none⟩], []⟩ ⟨5, 5, 10, 10⟩ 0 =
      [⟨[], "xyz", ⟨0, 0, 10, 10⟩, 0, false, none⟩] := by
    simp only [overlappingBlocksOf, pageBlocksOf]
    norm_num [List.filter, overlapsRegion, min_def, max_def]
  have h := (findTextBlockToReplace_spec
    ⟨[⟨[], "xyz", ⟨0, 0, 10, 10⟩, 0, false, none⟩], []⟩ "qq" ⟨5, 5, 10, 10⟩ 0).2.2.2 ?_
  · rw [h, hovl]
    rfl
  · intro b hb
    rw [hovl] at hb
    rw [List.mem_singleton.mp hb]
    exact hfuzzy

/-- C4, counterexample. `replaceTextInBlock` builds the replacement block
from the TARGET argument, not from the stored block it found: with a stored
block (text `"old"`, width 10) and a target sharing only its page and origin
(text `"tgt"`, width 20), the resulting block carries `originalText = "tgt"`
and width 20 — not the stored block's previous text `"old"` and width 10 as
the claim states. -/
theorem replaceTextInBlock_target_cex :
    (replaceTextInBlock ⟨[⟨[], "old", ⟨0, 0, 10, 10⟩, 0, false, none⟩], []⟩
        ⟨[], "tgt", ⟨0, 0, 20, 10⟩, 0, false, none⟩ "new").blocks =
      [⟨[], "new", ⟨0, 0, 20, 10⟩, 0, true, some "tgt"⟩] ∧
    ¬ ((some "tgt" : Option String) = some "old") ∧ ¬ ((20 : ℚ) = 10) := by
  refine ⟨by decide, by decide, by norm_num⟩

/-- C4, amended. When some block of the map matches the target's
`(pageIndex, position.x, position.y)` keys (the hypothesis gives the
`findIndex` result `i`), the result keeps the pages, keeps the length,
replaces exactly the block at `i` — the first matching one — by the block
built from the TARGET with `text = newText`,
`originalText = target's text`, `isModified = true` (coinciding with the
claim whenever the target equals the stored block, which is how the function
is called), and leaves every other index unchanged; the input map value
itself is unaffected (the source shallow-copies both arrays before the
index assignment). -/
theorem replaceTextInBlock_found (textMap : PdfTextMap) (blockToReplace : TextBlock)
    (newText : String) (i : ℕ)
    (hi : textMap.blocks.findIdx? (fun block => sameKeys block blockToReplace) = some i) :
    (replaceTextInBlock textMap blockToReplace newText).pages = textMap.pages ∧
    (replaceTextInBlock textMap blockToReplace newText).blocks.length =
      textMap.blocks.length ∧
    (replaceTextInBlock textMap blockToReplace newText).blocks[i]? =
      some { blockToReplace with
             text := newText
             originalText := some blockToReplace.text
             isModified := true } ∧
    (∀ j, ¬ j = i →
      (replaceTextInBlock textMap blockToReplace newText).blocks[j]? =
        textMap.blocks[j]?) ∧
    (∃ b, textMap.blocks[i]? = some b ∧ sameKeys b blockToReplace = true) ∧
    (∀ j, j < i → ∀ b, textMap.blocks[j]? = some b →
      sameKeys b blockToReplace = false) := by
  obtain ⟨hlen, hp, hprev⟩ := List.findIdx?_eq_some_iff_getElem.mp hi
  have hru : replaceTextInBlock textMap blockToReplace newText =
      { blocks := textMap.blocks.set i
          { blockToReplace with
            text := newText
            originalText := some blockToReplace.text
            isModified := true }
        pages := textMap.pages } := by
    unfold replaceTextInBlock
    rw [hi]
  rw [hru]
  refine ⟨rfl, by simp, ?_, ?_, ?_, ?_⟩
  · exact List.getElem?_set_self hlen
  · intro j hj
    exact List.getElem?_set_ne (fun e => hj e.symm)
  · exact ⟨textMap.blocks[i], by rw [List.getElem?_eq_getElem hlen], hp⟩
  · intro j hj b hb
    have hjl : j < textMap.blocks.length := lt_trans hj hlen
    have hbj : textMap.blocks[j] = b := by
      rw [List.getElem?_eq_getElem hjl] at hb
      exact Option.some.inj hb
    have h2 := hprev j hj
    rw [← hbj]
    simpa using h2

/-- C4, witness: a concrete map with one block matching the target's keys. -/
theorem replaceTextInBlock_found_witness :
    (replaceTextInBlock ⟨[⟨[], "old", ⟨0, 0, 10, 10⟩, 0, false, none⟩], []⟩
        ⟨[], "old", ⟨0, 0, 10, 10⟩, 0, false, none⟩ "new").blocks[0]? =
      some ⟨[], "new", ⟨0, 0, 10, 10⟩, 0, true, some "old"⟩ := by
  have h := (replaceTextInBlock_found
    ⟨[⟨[], "old", ⟨0, 0, 10, 10⟩, 0, false, none⟩], []⟩
    ⟨[], "old", ⟨0, 0, 10, 10⟩, 0, false, none⟩ "new" 0 (by decide)).2.2.1
  exact h

/-- C5. When no block of the map shares the target's
`(pageIndex, position.x, position.y)` keys, `replaceTextInBlock` returns the
original map unchanged (the embedding is total, mirroring that the source
only logs and returns — it throws nothing). -/
theorem replaceTextInBlock_noMatch_noop (textMap : PdfTextMap)
    (blockToReplace : TextBlock) (newText : String)
    (h : ∀ b ∈ textMap.blocks, sameKeys b blockToReplace = false) :
    replaceTextInBlock textMap blockToReplace newText = textMap := by
  have hnone : textMap.blocks.findIdx? (fun block => sameKeys block blockToReplace) = none :=
    List.findIdx?_eq_none_iff.mpr h
  unfold replaceTextInBlock
  rw [hnone]

/-- C5, witness: a map whose single block differs from the target in `x`. -/
theorem replaceTextInBlock_noMatch_noop_witness :
    replaceTextInBlock ⟨[⟨[], "keep", ⟨3, 4, 10, 10⟩, 0, false, none⟩], []⟩
        ⟨[], "tgt", ⟨5, 4, 10, 10⟩, 0, false, none⟩ "new" =
      ⟨[⟨[], "keep", ⟨3, 4, 10, 10⟩, 0, false, none⟩], []⟩ :=
  replaceTextInBlock_noMatch_noop _ _ _ (by decide)

/-- C6. Two runs on page 0 with `y₁ = 500`, `height = 12`, `y₂ = 495`
(`|Δy| = 5 ≤ 6 = 0.5·12`) merge into one block when the second starts at
`x₂ = x₁ + width₁ + 1` (gap 1 ≤ 0.5·width₂ = 25), and split into two blocks
when `x₂ = x₁ + width₁ + width₁` (gap 50 > 25); the empty input yields no
blocks. -/
theorem groupTextIntoBlocks_examples :
    (groupTextIntoBlocks
        [⟨"one", ⟨100, 500, 50, 12, none, none⟩, 0⟩,
         ⟨"two", ⟨151, 495, 50, 12, none, none⟩, 0⟩]).map (fun b => b.items) =
      [[⟨"one", ⟨100, 500, 50, 12, none, none⟩, 0⟩,
        ⟨"two", ⟨151, 495, 50, 12, none, none⟩, 0⟩]] ∧
    (groupTextIntoBlocks
        [⟨"one", ⟨100, 500, 50, 12, none, none⟩, 0⟩,
         ⟨"two", ⟨200, 495, 50, 12, none, none⟩, 0⟩]).map (fun b => b.items) =
      [[⟨"one", ⟨100, 500, 50, 12, none, none⟩, 0⟩],
       [⟨"two", ⟨200, 495, 50, 12, none, none⟩, 0⟩]] ∧
    groupTextIntoBlocks [] = [] := by
  refine ⟨?_, ?_, rfl⟩ <;>
    norm_num [groupTextIntoBlocks, sortWith, insertCmp, sortCmp, groupStep,
      createBlockFromItems, consEqNilFalse, notConsEqNilTrue]

/-- C7. `fuzzyTextMatch a b` is true exactly when one normalized string
contains the other or the spec-side similarity (1 on identical strings by the
early branch, 0 when either is empty, else word-set Jaccard) exceeds 0.7;
and on `"a b c"` vs `"b c d"` the similarity is 2/4 = 1/2 ≤ 0.7, neither
containment holds, so the match is false. -/
theorem fuzzyTextMatch_spec :
    (∀ a b : String, fuzzyTextMatch a b = true ↔
      (normalize b.data <:+: normalize a.data ∨
       normalize a.data <:+: normalize b.data ∨
       specSimilarity (normalize a.data) (normalize b.data) > 7/10)) ∧
    calculateSimilarity (normalize "a b c".data) (normalize "b c d".data) = 1/2 ∧
    fuzzyTextMatch "a b c" "b c d" = false := by
  have hsim : calculateSimilarity (normalize "a b c".data) (normalize "b c d".data) = 1/2 := by
    have h := @calculateSimilarity_eval (normalize "a b c".data) (normalize "b c d".data) 2 4
      (by decide) (by decide) (by decide) (by decide) (by decide)
    rw [h]
    norm_num
  refine ⟨?_, hsim, ?_⟩
  · intro a b
    rw [fuzzyTextMatch_true_iff, calculateSimilarity_eq_spec]
  · refine fuzzyTextMatch_eq_false (by decide) (by decide) ?_
    rw [hsim]
    norm_num

/-- C8, counterexample. When the extractor supplies a height (here 10), the
stored height is NOT that height: the source sets `fontSize = item.height`
and then stores `height = fontSize * 1.2 = 12 ≠ 10`. -/
theorem mkTextItem_height_cex :
    (mkTextItem 0
        { str := "hi", t3 := 1, t4 := 5, t5 := 7, width := some 100,
          height := some 10 }).position.height = 12 ∧
    ¬ ((12 : ℚ) = 10) := by
  constructor
  · norm_num [mkTextItem, jsOr]
  · norm_num

/-- C8, amended. The stored position is `(transform[4], transform[5])`; the
stored width is the extractor width when present and non-zero, else
`str.length × fontSize × 0.6`; the stored height is ALWAYS `fontSize × 1.2`,
where `fontSize` is the extractor-provided height when present and non-zero
(so a provided height `h` is stored as `h × 1.2`, not `h`), falling back to
`transform[3] × (item.fontSize or 10)` only when the height is absent or 0. -/
theorem mkTextItem_spec (pageIndex : ℕ) (item : RawTextItem) :
    (mkTextItem pageIndex item).position.x = item.t4 ∧
    (mkTextItem pageIndex item).position.y = item.t5 ∧
    (mkTextItem pageIndex item).position.height =
      jsOr item.height (item.t3 * jsOr item.fontSize 10) * (12/10) ∧
    (∀ w, item.width = some w → ¬ w = 0 →
      (mkTextItem pageIndex item).position.width = w) ∧
    ((item.width = none ∨ item.width = some 0) →
      (mkTextItem pageIndex item).position.width =
        (item.str.length : ℚ) * jsOr item.height (item.t3 * jsOr item.fontSize 10) * (6/10)) ∧
    (∀ h, item.height = some h → ¬ h = 0 →
      (mkTextItem pageIndex item).position.height = h * (12/10)) ∧
    ((item.height = none ∨ item.height = some 0) →
      (mkTextItem pageIndex item).position.height =
        item.t3 * jsOr item.fontSize 10 * (12/10)) := by
  refine ⟨rfl, rfl, rfl, ?_, ?_, ?_, ?_⟩
  · intro w hw hw0
    simp [mkTextItem, jsOr, hw, hw0]
  · rintro (hw | hw) <;> simp [mkTextItem, jsOr, hw]
  · intro h hh hh0
    simp [mkTextItem, jsOr, hh, hh0]
  · rintro (hh | hh) <;> simp [mkTextItem, jsOr, hh]

/-- C8, witness: an item with no extractor width or height, `transform[3] = 2`
and `item.fontSize = 5`, so `fontSize = 10`, width `= 2·10·0.6 = 12` and
height `= 10·1.2 = 12`. -/
theorem mkTextItem_spec_witness :
    (mkTextItem 0 { str := "ab", t3 := 2, fontSize := some 5 }).position.width = 12 ∧
    (mkTextItem 0 { str := "ab", t3 := 2, fontSize := some 5 }).position.height = 12 := by
  have h1 := (mkTextItem_spec 0 { str := "ab", t3 := 2, fontSize := some 5 }).2.2.2.2.1
    (Or.inl rfl)
  have h2 := (mkTextItem_spec 0 { str := "ab", t3 := 2, fontSize := some 5 }).2.2.2.2.2.2
    (Or.inl rfl)
  have hl : ("ab".length : ℚ) = 2 := by decide
  constructor
  · rw [h1]
    norm_num [jsOr, hl]
  · rw [h2]
    norm_num [jsOr]

/-- C9. The buffer `regeneratePdfWithModifiedText` hands to
`PDFDocument.load` is `new Uint8Array(input).buffer`, which is the very same
`ArrayBuffer` object as the input — a typed-array view shares its backing
buffer, so no copy is made, contradicting the defensive-copy contract (and
the source's own comment claiming "a proper copy"). -/
theorem regenerateParserBuffer_aliases (originalPdfArrayBuffer : ArrayBufferRef) :
    regenerateParserBuffer originalPdfArrayBuffer = originalPdfArrayBuffer := rfl

/-- C10. `fuzzyTextMatch` is symmetric: both containment directions are
tested, normalization applies to both operands, and the Jaccard similarity is
symmetric. -/
theorem fuzzyTextMatch_symm (a b : String) :
    fuzzyTextMatch a b = fuzzyTextMatch b a := by
  simp only [fuzzyTextMatch]
  rw [calculateSimilarity_comm]
  rw [Bool.or_comm (decide (normalize b.data <:+: normalize a.data))]

end PdfTextEditor
